import Mathlib

/-!
Shallow embedding of the `ni` editor (src/main.c): the row store with tab
expansion, the viewport scroll computation, the escape-sequence key decoder,
and the modal keypress dispatcher.  Bytes are modelled as natural numbers
0..255, C `int` fields as naturals where the source keeps them non-negative;
the one spot where C signed/unsigned conversion matters (`abDelete`, whose
guard `ab->len - n > 0` is evaluated in `size_t` arithmetic) models the
64-bit unsigned arithmetic and the conversion back to a 32-bit int
explicitly.  Bounded C loops (`for`, `while`) are translated to structural
recursion on an explicit iteration count that matches the loop bound, so
every definition evaluates by `decide`.
-/

namespace Ni

/-- NI_TAB_STOP (main.c line 28). -/
def NI_TAB_STOP : Nat := 4

/-- enum editorKeys (main.c lines 32-43). -/
def ARROW_LEFT : Nat := 1000

def ARROW_RIGHT : Nat := 1001

def ARROW_UP : Nat := 1002

def ARROW_DOWN : Nat := 1003

def DEL_KEY : Nat := 1004

def HOME_KEY : Nat := 1005

def END_KEY : Nat := 1006

def PAGE_UP : Nat := 1007

def PAGE_DOWN : Nat := 1008

/-- enum editorModes (main.c lines 45-49). -/
inductive Mode
  | insert
  | normal
  | command
deriving DecidableEq

/-- abuf (main.c lines 52-55): `b` models the contents of the heap buffer,
`len` the length field.  `len` is a C `int`, so it is modelled as an integer:
the source can drive it negative (see `abDelete`). -/
structure Abuf where
  b : List Nat
  len : Int
deriving DecidableEq

/-- Number of values of the C type `size_t` (64-bit). -/
def USIZE : Nat := 2 ^ 64

/-- Conversion of the C `int` value `x` to `size_t` (modular). -/
def toSizeT (x : Int) : Nat := (x.emod (USIZE : Int)).toNat

/-- `size_t` subtraction `a - n` (modular). -/
def subSizeT (a n : Nat) : Nat := (a + (USIZE - n % USIZE)) % USIZE

/-- Conversion of a `size_t` value back to a 32-bit C `int`
(two's-complement wrap, what the targeted compilers do). -/
def intOfSizeT (u : Nat) : Int := Int.bmod (u : Int) (2 ^ 32)

/-- abAppend (main.c lines 60-67): grow the buffer to `len + slen` bytes and
copy `s` at offset `len`; the observable contents are the first `len` bytes
followed by `s`. -/
def abAppend (ab : Abuf) (s : List Nat) : Abuf :=
  { b := ab.b.take ab.len.toNat ++ s, len := ab.len + s.length }

/-- abDelete (main.c lines 69-74): `if (ab->len - n > 0) ab->len -= n;`.
Both the comparison and the subtraction promote the `int` field `len` to
`size_t`, so they are modular 64-bit unsigned operations; the assignment
converts back to `int`. -/
def abDelete (ab : Abuf) (n : Nat) : Abuf :=
  if 0 < subSizeT (toSizeT ab.len) n then
    { ab with len := intOfSizeT (subSizeT (toSizeT ab.len) n) }
  else ab

/-- abFree (main.c lines 76-79): set `len` to 0 and release the buffer. -/
def abFree (_ : Abuf) : Abuf := { b := [], len := 0 }

/-- Contents of an abuf as read by the source: bytes 0..len of `b`. -/
def abContents (ab : Abuf) : List Nat := ab.b.take ab.len.toNat

/-- erow (main.c lines 83-88). -/
structure Erow where
  size : Nat
  rsize : Nat
  chars : List Nat
  render : List Nat
deriving DecidableEq

/-- The all-zero row, used as the out-of-range default of list reads
(the source guards every row access with an index check). -/
def erow0 : Erow := { size := 0, rsize := 0, chars := [], render := [] }

/-- Read `chars[j]`.  C row contents are NUL-terminated, so reading one byte
past the end (which the lowercase word-motion scan does) yields 0. -/
def charAt (chars : List Nat) (j : Nat) : Nat := chars.getD j 0

/-- C library isspace (default locale): space and the five control blanks. -/
def isspace (c : Nat) : Bool := decide (c = 32 ∨ (9 ≤ c ∧ c ≤ 13))

/-- C library ispunct (default locale). -/
def ispunct (c : Nat) : Bool :=
  decide ((33 ≤ c ∧ c ≤ 47) ∨ (58 ≤ c ∧ c ≤ 64) ∨ (91 ≤ c ∧ c ≤ 96) ∨ (123 ≤ c ∧ c ≤ 126))

/-- C library isprint (default locale). -/
def isprint (c : Nat) : Bool := decide (32 ≤ c ∧ c ≤ 126)

/-- editorRowCxToRx inner loop (main.c lines 291-296): iterate `j` from 0,
`fuel` times (the loop runs exactly `cx` iterations), accumulating `rx`:
a tab adds `(NI_TAB_STOP - 1) - (rx % NI_TAB_STOP)` and then 1 like every
other byte. -/
def cxToRxLoop (chars : List Nat) : Nat → Nat → Nat → Nat
  | 0, _, rx => rx
  | fuel + 1, j, rx =>
      if charAt chars j = 9 then
        cxToRxLoop chars fuel (j + 1) (rx + ((NI_TAB_STOP - 1) - rx % NI_TAB_STOP) + 1)
      else
        cxToRxLoop chars fuel (j + 1) (rx + 1)

/-- editorRowCxToRx (main.c lines 288-298). -/
def editorRowCxToRx (row : Erow) (cx : Nat) : Nat := cxToRxLoop row.chars cx 0 0

/-- The inner `while (idx % NI_TAB_STOP != 0) row->render[idx++] = ' ';` of
editorUpdateRow (main.c line 315): keep appending spaces until the length is
a multiple of NI_TAB_STOP.  At most NI_TAB_STOP - 1 spaces are ever
appended, so a fuel of NI_TAB_STOP checks is exact. -/
def fillTab : Nat → List Nat → List Nat
  | 0, render => render
  | fuel + 1, render =>
      if render.length % NI_TAB_STOP ≠ 0 then fillTab fuel (render ++ [32]) else render

/-- The render-building loop of editorUpdateRow (main.c lines 311-319):
`fuel` counts the remaining iterations (the loop runs exactly `size`
iterations, `j` from 0). -/
def renderLoop (chars : List Nat) : Nat → Nat → List Nat → List Nat
  | 0, _, render => render
  | fuel + 1, j, render =>
      if charAt chars j = 9 then
        renderLoop chars fuel (j + 1) (fillTab NI_TAB_STOP (render ++ [32]))
      else
        renderLoop chars fuel (j + 1) (render ++ [charAt chars j])

/-- editorUpdateRow (main.c lines 300-322).  The tab count at the top of the
source function only sizes the allocation; the semantics are the loop. -/
def editorUpdateRow (row : Erow) : Erow :=
  { row with
    render := renderLoop row.chars row.size 0 []
    rsize := (renderLoop row.chars row.size 0 []).length }

/-- editorNormalModeNumRep (main.c lines 385-387), as the new value of
`E.cmdrep`. -/
def editorNormalModeNumRep (cmdrep n : Nat) : Nat := cmdrep * 10 + n

/-- editorCommandModeHandle quit scan (main.c lines 394-408): `_quit` is set
iff some byte of the command buffer is 'q' (the `_write` path is dead code,
`_write` is always 0). -/
def editorCommandModeQuit (ab : Abuf) : Bool := (abContents ab).any (fun c => c == 113)

/-- struct editorConfig (main.c lines 90-110) restricted to the fields the
input/scroll engine reads and writes.  All fields the source keeps
non-negative are naturals. -/
structure EState where
  mode : Mode
  cmdbuf : Abuf
  cmdrep : Nat
  cx : Nat
  cy : Nat
  rx : Nat
  rowoff : Nat
  coloff : Nat
  screenrows : Nat
  screencols : Nat
  numrows : Nat
  row : List Erow
  statusmsg : List Nat
deriving DecidableEq

/-- editorSetStatusMsg (main.c lines 575-581): vsnprintf into the 80-byte
statusmsg field keeps at most 79 bytes. -/
def editorSetStatusMsg (msg : List Nat) : List Nat := msg.take 79

/-- editorAppendRow (main.c lines 324-338). -/
def editorAppendRow (s : EState) (chars : List Nat) : EState :=
  { s with
    row := s.row ++ [editorUpdateRow { size := chars.length, rsize := 0, chars := chars, render := [] }]
    numrows := s.numrows + 1 }

/-- editorScroll (main.c lines 412-430). -/
def editorScroll (s : EState) : EState :=
  let rx := if s.cy < s.numrows then editorRowCxToRx (s.row.getD s.cy erow0) s.cx else 0
  let rowoff1 := if s.cy < s.rowoff then s.cy else s.rowoff
  let rowoff2 := if rowoff1 + s.screenrows ≤ s.cy then s.cy - s.screenrows + 1 else rowoff1
  let coloff1 := if rx < s.coloff then rx else s.coloff
  let coloff2 := if coloff1 + s.screencols ≤ rx then rx - s.screencols + 1 else coloff1
  { s with rx := rx, rowoff := rowoff2, coloff := coloff2 }

/-- `while (E.cx < row->size && !isspace(E.row[E.cy].chars[E.cx++])) {}`
(main.c line 631, keys 'W'/'E').  The byte is read and `cx` incremented
before the test, so a blank exits the loop with the cursor one past it.
Fuel `size` checks are exact (each passing check advances `cx`). -/
def skipWordUpper (chars : List Nat) (size : Nat) : Nat → Nat → Nat
  | 0, cx => cx
  | fuel + 1, cx =>
      if cx < size then
        if isspace (charAt chars cx) then cx + 1
        else skipWordUpper chars size fuel (cx + 1)
      else cx

/-- The lowercase variant (main.c line 634, keys 'w'/'e'): after the
post-increment the scan additionally peeks at the next byte and stops on
punctuation (at end of row this reads the NUL terminator, which is not
punctuation). -/
def skipWordLower (chars : List Nat) (size : Nat) : Nat → Nat → Nat
  | 0, cx => cx
  | fuel + 1, cx =>
      if cx < size then
        if isspace (charAt chars cx) then cx + 1
        else if ispunct (charAt chars (cx + 1)) then cx + 1
        else skipWordLower chars size fuel (cx + 1)
      else cx

/-- `while (E.cx < row->size && E.row[E.cy].chars[E.cx] == ' ') E.cx++;`
(main.c line 638, keys 'w'/'W'). -/
def skipSpaces (chars : List Nat) (size : Nat) : Nat → Nat → Nat
  | 0, cx => cx
  | fuel + 1, cx =>
      if cx < size ∧ charAt chars cx = 32 then skipSpaces chars size fuel (cx + 1) else cx

/-- The w/W/e/E case of editorMoveCursor (main.c lines 624-646), entered only
when the cursor row exists. -/
def wordMotion (s : EState) (key : Nat) : EState :=
  let row := s.row.getD s.cy erow0
  let cx1 :=
    if key = 87 ∨ key = 69 then skipWordUpper row.chars row.size row.size s.cx
    else skipWordLower row.chars row.size row.size s.cx
  let cx2 := if key = 87 ∨ key = 119 then skipSpaces row.chars row.size row.size cx1 else cx1
  if row.size ≤ cx2 then { s with cy := s.cy + 1, cx := 0 } else { s with cx := cx2 }

/-- The switch of editorMoveCursor (main.c lines 592-647).  The NULL check
`row` of the source is `cy < numrows`. -/
def moveCursorCore (s : EState) (key : Nat) : EState :=
  if key = 107 ∨ key = ARROW_UP then
    if s.cy ≠ 0 then { s with cy := s.cy - 1 } else s
  else if key = 106 ∨ key = ARROW_DOWN then
    if s.cy < s.numrows then { s with cy := s.cy + 1 } else s
  else if key = 104 ∨ key = ARROW_LEFT then
    if s.cx ≠ 0 then { s with cx := s.cx - 1 }
    else if 0 < s.cy then { s with cy := s.cy - 1, cx := (s.row.getD (s.cy - 1) erow0).size }
    else s
  else if key = 108 ∨ key = ARROW_RIGHT then
    if s.cy < s.numrows ∧ s.cx < (s.row.getD s.cy erow0).size then { s with cx := s.cx + 1 }
    else if s.cy < s.numrows ∧ s.cx = (s.row.getD s.cy erow0).size then
      { s with cy := s.cy + 1, cx := 0 }
    else s
  else if key = 119 ∨ key = 87 ∨ key = 101 ∨ key = 69 then
    if s.cy < s.numrows then wordMotion s key else s
  else s

/-- Length of the row under the cursor, 0 when the cursor sits past the last
row (`int rowlen = row ? row->size : 0;`, main.c line 651). -/
def rowLenAt (s : EState) : Nat :=
  if s.cy < s.numrows then (s.row.getD s.cy erow0).size else 0

/-- The end-of-line snap at the bottom of editorMoveCursor
(main.c lines 649-654). -/
def snapCursor (s : EState) : EState :=
  if rowLenAt s < s.cx then { s with cx := rowLenAt s } else s

/-- editorMoveCursor (main.c lines 588-655). -/
def editorMoveCursor (s : EState) (key : Nat) : EState :=
  snapCursor (moveCursorCore s key)

/-- `while (times--) editorMoveCursor(...)` (main.c lines 715-718). -/
def repMove (key : Nat) : Nat → EState → EState
  | 0, s => s
  | n + 1, s => repMove key n (editorMoveCursor s key)

/-- The PAGE_UP/PAGE_DOWN/Ctrl-U/Ctrl-D case of editorProcessKeypress
(main.c lines 702-720). -/
def pageMove (s : EState) (c : Nat) : EState :=
  let s1 :=
    if c = PAGE_UP ∨ c = 21 then { s with cy := s.rowoff }
    else if c = PAGE_DOWN ∨ c = 4 then
      { s with
        cy := if s.numrows < s.rowoff + s.screenrows - 1 then s.numrows
              else s.rowoff + s.screenrows - 1 }
    else s
  repMove (if c = PAGE_DOWN ∨ c = 4 then ARROW_DOWN else ARROW_UP) s.screenrows s1

/-- Result of processing one keypress: the source either mutates the global
state and returns, or calls editorExit (clear screen, exit(0)). -/
inductive StepResult
  | exit
  | next (s : EState)
deriving DecidableEq

/-- The Normal-mode switch of editorProcessKeypress (main.c lines 671-738),
reached when the key did not extend the repeat count.  Ctrl-Q is 17,
Ctrl-U is 21, Ctrl-D is 4. -/
def normalSwitch (s : EState) (c : Nat) : StepResult :=
  if c = 105 then .next { s with mode := .insert }
  else if c = 58 then .next { s with mode := .command, statusmsg := editorSetStatusMsg [58] }
  else if c = 17 then .exit
  else if c = 48 ∨ c = HOME_KEY then .next { s with cx := 0 }
  else if c = 36 ∨ c = END_KEY then
    .next (if s.cy < s.numrows then { s with cx := (s.row.getD s.cy erow0).size } else s)
  else if c = 21 ∨ c = 4 ∨ c = PAGE_UP ∨ c = PAGE_DOWN then .next (pageMove s c)
  else if c = 107 ∨ c = 106 ∨ c = 108 ∨ c = 104 ∨ c = ARROW_UP ∨ c = ARROW_DOWN ∨
          c = ARROW_LEFT ∨ c = ARROW_RIGHT ∨ c = 119 ∨ c = 87 ∨ c = 98 ∨ c = 66 ∨
          c = 101 ∨ c = 69 then
    .next (editorMoveCursor s c)
  else .next s

/-- editorProcessKeypress (main.c lines 660-790) applied to an already
decoded key `c`.  The final unknown-mode `die` branch of the source is
unreachable: the three modes are exhaustive. -/
def editorProcessKeypress (s : EState) (c : Nat) : StepResult :=
  match s.mode with
  | .normal =>
    if c ≤ 57 ∧ (49 ≤ c ∨ (s.cmdrep ≠ 0 ∧ 48 ≤ c)) then
      .next { s with cmdrep := editorNormalModeNumRep s.cmdrep (c - 48) }
    else
      match normalSwitch s c with
      | .exit => .exit
      | .next t => .next { t with cmdrep := 0 }
  | .insert =>
    if c = 27 then .next { s with mode := .normal }
    else if c = ARROW_UP ∨ c = ARROW_DOWN ∨ c = ARROW_LEFT ∨ c = ARROW_RIGHT then
      .next (editorMoveCursor s c)
    else .next s
  | .command =>
    if c = 13 then
      if editorCommandModeQuit s.cmdbuf then .exit
      else
        .next { s with cmdbuf := abFree s.cmdbuf, statusmsg := editorSetStatusMsg [],
                       mode := .normal }
    else if c = 27 then
      .next { s with cmdbuf := abFree s.cmdbuf, statusmsg := editorSetStatusMsg [],
                     mode := .normal }
    else if c = 56 then .next { s with cmdbuf := abDelete s.cmdbuf 1 }
    else if isprint c then
      .next { s with cmdbuf := abAppend s.cmdbuf [c],
                     statusmsg := editorSetStatusMsg (58 :: abContents (abAppend s.cmdbuf [c])) }
    else .next s

/-- editorReadKey (main.c lines 188-233).  `c` is the first byte read;
`pending` are the bytes that arrive before the read timeout, so a read on an
exhausted list models the timeout path `read(...) != 1`. -/
def editorReadKey (c : Nat) (pending : List Nat) : Nat :=
  if c = 27 then
    match pending with
    | [] => 27
    | [_] => 27
    | s0 :: s1 :: rest =>
      if s0 = 91 then
        if 48 ≤ s1 ∧ s1 ≤ 57 then
          match rest with
          | [] => 27
          | s2 :: _ =>
            if s2 = 126 then
              if s1 = 49 then HOME_KEY
              else if s1 = 51 then DEL_KEY
              else if s1 = 52 then END_KEY
              else if s1 = 53 then PAGE_UP
              else if s1 = 54 then PAGE_DOWN
              else if s1 = 55 then HOME_KEY
              else if s1 = 56 then END_KEY
              else 27
            else 27
        else
          if s1 = 65 then ARROW_UP
          else if s1 = 66 then ARROW_DOWN
          else if s1 = 67 then ARROW_RIGHT
          else if s1 = 68 then ARROW_LEFT
          else if s1 = 72 then HOME_KEY
          else if s1 = 70 then END_KEY
          else 27
      else 27
  else c

/-- initEditor (main.c lines 794-812), given the measured screen size. -/
def initEditor (screenrows screencols : Nat) : EState :=
  { mode := .normal, cmdbuf := { b := [], len := 0 }, cmdrep := 0,
    cx := 0, cy := 0, rx := 0, rowoff := 0, coloff := 0,
    screenrows := screenrows, screencols := screencols,
    numrows := 0, row := [], statusmsg := [] }

/-- The cursor-bounds invariant: `cy` at most one past the last row and `cx`
at most the current row length (both are naturals, so non-negative). -/
def cursorInv (s : EState) : Prop := s.cy ≤ s.numrows ∧ s.cx ≤ rowLenAt s

/-- The cursor-bounds invariant on a step result (vacuous on exit). -/
def stepInv : StepResult → Prop
  | .exit => True
  | .next t => cursorInv t

/-- The state after a processed keypress (`d` is returned on the exit path,
where the process has no further state). -/
def nextState (r : StepResult) (d : EState) : EState :=
  match r with
  | .exit => d
  | .next t => t

/-- One processed keypress viewed as a state transformer. -/
def press (s : EState) (c : Nat) : EState := nextState (editorProcessKeypress s c) s

end Ni

namespace Ni

/-- Peeling the last iteration off the editorRowCxToRx loop: running one more
iteration applies the per-byte width rule at position `j + fuel` to the
accumulated width. -/
theorem cxToRxLoop_step (chars : List Nat) :
    ∀ (fuel j rx : Nat),
      cxToRxLoop chars (fuel + 1) j rx =
        (if charAt chars (j + fuel) = 9
         then cxToRxLoop chars fuel j rx +
           (NI_TAB_STOP - cxToRxLoop chars fuel j rx % NI_TAB_STOP)
         else cxToRxLoop chars fuel j rx + 1) := by
  intro fuel
  induction fuel with
  | zero =>
    intro j rx
    conv_lhs => rw [cxToRxLoop]
    by_cases hc : charAt chars j = 9 <;> simp [cxToRxLoop, hc, NI_TAB_STOP] <;> omega
  | succ n ih =>
    intro j rx
    have hidx : j + 1 + n = j + (n + 1) := by omega
    conv_lhs => rw [cxToRxLoop]
    conv_rhs => rw [cxToRxLoop]
    by_cases hc : charAt chars j = 9 <;> simp only [hc, if_true, if_false, ite_true, ite_false] <;>
      (rw [ih (j + 1), hidx])

/-- The row "a\tb" of the spec example. -/
def rowAB : Erow := { size := 3, rsize := 0, chars := [97, 9, 98], render := [] }

/-- C1: tab expansion follows the TAB_STOP rule.  For every row and every
cursor column inside the row, one more column of editorRowCxToRx adds
NI_TAB_STOP - (width % NI_TAB_STOP) rendered cells for a tab byte and 1 cell
for any other byte; for the row "a\tb" editorUpdateRow renders "a   b"
(the tab becomes 3 spaces, so 'b' lands at rendered column 4), and
editorRowCxToRx returns 1 at cx = 1 and 4 at cx = 2. -/
theorem C1_tab_expansion :
    (∀ (row : Erow) (cx : Nat), cx < row.size →
       editorRowCxToRx row (cx + 1) =
         (if charAt row.chars cx = 9
          then editorRowCxToRx row cx +
            (NI_TAB_STOP - editorRowCxToRx row cx % NI_TAB_STOP)
          else editorRowCxToRx row cx + 1)) ∧
    (editorUpdateRow rowAB).render = [97, 32, 32, 32, 98] ∧
    (editorUpdateRow rowAB).rsize = 5 ∧
    editorRowCxToRx rowAB 1 = 1 ∧
    editorRowCxToRx rowAB 2 = 4 := by
  refine ⟨?_, by decide, by decide, by decide, by decide⟩
  intro row cx _
  simpa [editorRowCxToRx] using cxToRxLoop_step row.chars cx 0 0

/-- Witness for C1 at the spec's own example: the step from cx = 1 to cx = 2
of "a\tb" crosses the tab. -/
theorem C1_tab_expansion_witness :
    editorRowCxToRx rowAB 2 =
      (if charAt rowAB.chars 1 = 9
       then editorRowCxToRx rowAB 1 + (NI_TAB_STOP - editorRowCxToRx rowAB 1 % NI_TAB_STOP)
       else editorRowCxToRx rowAB 1 + 1) :=
  C1_tab_expansion.1 rowAB 1 (by decide)

/-- C2: after editorScroll, cy lies within [rowoff, rowoff + screenrows) and
rx within [coloff, coloff + screencols) for every state with a positive
screen; with screenrows = 10, a cursor at cy = 25 and a previous rowoff of
at most 5 lands rowoff at 16 (= 25 - 10 + 1). -/
theorem C2_scroll_invariant :
    (∀ s : EState, 1 ≤ s.screenrows → 1 ≤ s.screencols →
       (editorScroll s).rowoff ≤ (editorScroll s).cy ∧
       (editorScroll s).cy < (editorScroll s).rowoff + (editorScroll s).screenrows ∧
       (editorScroll s).coloff ≤ (editorScroll s).rx ∧
       (editorScroll s).rx < (editorScroll s).coloff + (editorScroll s).screencols) ∧
    (∀ s : EState, s.screenrows = 10 → s.cy = 25 → s.rowoff ≤ 5 →
       (editorScroll s).rowoff = 16) := by
  constructor
  · intro s h1 h2
    simp only [editorScroll]
    split_ifs <;> simp_all <;> omega
  · intro s h1 h2 h3
    simp only [editorScroll]
    split_ifs <;> simp_all <;> omega

/-- The concrete state of the C2 example: screen 10 rows by 6 columns, the
cursor jumped to row 25, the previous scroll offset was 3. -/
def sScroll : EState := { initEditor 10 6 with cy := 25, rowoff := 3 }

/-- Witness for C2 at the example state. -/
theorem C2_scroll_invariant_witness :
    ((editorScroll sScroll).rowoff ≤ (editorScroll sScroll).cy ∧
     (editorScroll sScroll).cy < (editorScroll sScroll).rowoff + (editorScroll sScroll).screenrows ∧
     (editorScroll sScroll).coloff ≤ (editorScroll sScroll).rx ∧
     (editorScroll sScroll).rx < (editorScroll sScroll).coloff + (editorScroll sScroll).screencols) ∧
    (editorScroll sScroll).rowoff = 16 :=
  ⟨C2_scroll_invariant.1 sScroll (by decide) (by decide),
   C2_scroll_invariant.2 sScroll (by decide) (by decide) (by decide)⟩

end Ni

namespace Ni

instance (s : EState) : Decidable (cursorInv s) := by
  unfold cursorInv; infer_instance

/-- The cursor-bounds invariant only depends on the cursor and row fields. -/
theorem cursorInv_congr {s t : EState} (hcy : t.cy = s.cy) (hcx : t.cx = s.cx)
    (hnum : t.numrows = s.numrows) (hrow : t.row = s.row) (h : cursorInv s) : cursorInv t := by
  unfold cursorInv rowLenAt at h ⊢
  rw [hcy, hcx, hnum, hrow]
  exact h

/-- rowLenAt ignores the cursor column. -/
theorem rowLenAt_set_cx (s : EState) (v : Nat) : rowLenAt { s with cx := v } = rowLenAt s := rfl

/-- editorProcessKeypress unfolded in Normal mode. -/
theorem processKeypress_normal (s : EState) (c : Nat) (h : s.mode = Mode.normal) :
    editorProcessKeypress s c =
      (if c ≤ 57 ∧ (49 ≤ c ∨ (s.cmdrep ≠ 0 ∧ 48 ≤ c)) then
        StepResult.next { s with cmdrep := editorNormalModeNumRep s.cmdrep (c - 48) }
      else
        match normalSwitch s c with
        | .exit => .exit
        | .next t => .next { t with cmdrep := 0 }) := by
  unfold editorProcessKeypress
  rw [h]

/-- editorProcessKeypress unfolded in Insert mode. -/
theorem processKeypress_insert (s : EState) (c : Nat) (h : s.mode = Mode.insert) :
    editorProcessKeypress s c =
      (if c = 27 then StepResult.next { s with mode := .normal }
      else if c = ARROW_UP ∨ c = ARROW_DOWN ∨ c = ARROW_LEFT ∨ c = ARROW_RIGHT then
        StepResult.next (editorMoveCursor s c)
      else StepResult.next s) := by
  unfold editorProcessKeypress
  rw [h]

/-- editorProcessKeypress unfolded in Command mode. -/
theorem processKeypress_command (s : EState) (c : Nat) (h : s.mode = Mode.command) :
    editorProcessKeypress s c =
      (if c = 13 then
        if editorCommandModeQuit s.cmdbuf then StepResult.exit
        else
          StepResult.next { s with cmdbuf := abFree s.cmdbuf, statusmsg := editorSetStatusMsg [],
                                   mode := .normal }
      else if c = 27 then
        StepResult.next { s with cmdbuf := abFree s.cmdbuf, statusmsg := editorSetStatusMsg [],
                                 mode := .normal }
      else if c = 56 then StepResult.next { s with cmdbuf := abDelete s.cmdbuf 1 }
      else if isprint c then
        StepResult.next { s with cmdbuf := abAppend s.cmdbuf [c],
                                 statusmsg := editorSetStatusMsg (58 :: abContents (abAppend s.cmdbuf [c])) }
      else StepResult.next s) := by
  unfold editorProcessKeypress
  rw [h]

/-- The word-motion case writes only the cursor fields. -/
theorem wordMotion_frame (s : EState) (k : Nat) :
    ∃ a b, wordMotion s k = { s with cx := a, cy := b } := by
  dsimp only [wordMotion]
  split_ifs <;> exact ⟨_, _, rfl⟩

/-- The editorMoveCursor switch writes only the cursor fields. -/
theorem moveCursorCore_frame (s : EState) (k : Nat) :
    ∃ a b, moveCursorCore s k = { s with cx := a, cy := b } := by
  unfold moveCursorCore
  split_ifs <;> first
    | exact ⟨_, _, rfl⟩
    | exact wordMotion_frame s k

/-- editorMoveCursor writes only the cursor fields. -/
theorem editorMoveCursor_frame (s : EState) (k : Nat) :
    ∃ a b, editorMoveCursor s k = { s with cx := a, cy := b } := by
  obtain ⟨a, b, h⟩ := moveCursorCore_frame s k
  unfold editorMoveCursor snapCursor
  rw [h]
  split_ifs <;> exact ⟨_, _, rfl⟩

/-- The end-of-line snap establishes the cursor-bounds invariant as long as
the row index is in range. -/
theorem snapCursor_inv (s : EState) (h : s.cy ≤ s.numrows) : cursorInv (snapCursor s) := by
  unfold snapCursor cursorInv
  split_ifs with hx
  · exact ⟨h, Nat.le_refl (rowLenAt s)⟩
  · exact ⟨h, Nat.le_of_not_lt hx⟩

/-- The word-motion case never pushes the row index past numrows. -/
theorem wordMotion_cy (s : EState) (k : Nat) (h : s.cy < s.numrows) :
    (wordMotion s k).cy ≤ (wordMotion s k).numrows := by
  dsimp only [wordMotion]
  split_ifs <;> dsimp only <;> omega

/-- The editorMoveCursor switch never pushes the row index past numrows. -/
theorem moveCursorCore_cy (s : EState) (k : Nat) (h : s.cy ≤ s.numrows) :
    (moveCursorCore s k).cy ≤ (moveCursorCore s k).numrows := by
  unfold moveCursorCore
  split_ifs <;> first
    | exact wordMotion_cy s k (by assumption)
    | omega
    | (dsimp only; omega)

/-- editorMoveCursor preserves the cursor-bounds invariant (only the row
bound is needed: the final snap repairs the column). -/
theorem editorMoveCursor_inv (s : EState) (k : Nat) (h : s.cy ≤ s.numrows) :
    cursorInv (editorMoveCursor s k) :=
  snapCursor_inv _ (moveCursorCore_cy s k h)

/-- At least one iteration of editorMoveCursor establishes the invariant. -/
theorem repMove_inv (k : Nat) : ∀ (n : Nat) (s : EState), s.cy ≤ s.numrows → 1 ≤ n →
    cursorInv (repMove k n s) := by
  intro n
  induction n with
  | zero => intro s h h1; exact absurd h1 (by omega)
  | succ m ih =>
    intro s h _
    rcases Nat.eq_zero_or_pos m with hm | hm
    · subst hm
      simpa [repMove] using editorMoveCursor_inv s k h
    · simpa [repMove] using ih (editorMoveCursor s k) (editorMoveCursor_inv s k h).1 hm

/-- The page-motion case preserves the invariant when the scroll offset is
at or above the cursor row (editorScroll guarantees this before every
keypress) and the screen has at least one row. -/
theorem pageMove_inv (s : EState) (c : Nat) (h : cursorInv s) (hro : s.rowoff ≤ s.cy)
    (hsr : 1 ≤ s.screenrows) : cursorInv (pageMove s c) := by
  have hcy := h.1
  simp only [pageMove]
  apply repMove_inv _ _ _ ?_ hsr
  split_ifs <;> first
    | omega
    | (dsimp only; omega)

/-- The Normal-mode switch preserves the cursor-bounds invariant. -/
theorem normalSwitch_inv (s : EState) (c : Nat) (h : cursorInv s) (hro : s.rowoff ≤ s.cy)
    (hsr : 1 ≤ s.screenrows) : stepInv (normalSwitch s c) := by
  unfold normalSwitch
  split_ifs <;> first
    | exact True.intro
    | exact h
    | exact ⟨h.1, Nat.zero_le _⟩
    | exact pageMove_inv s c h hro hsr
    | exact editorMoveCursor_inv s c h.1
    | (refine ⟨h.1, ?_⟩
       rw [rowLenAt_set_cx]
       simp only [rowLenAt]
       split_ifs <;> simp_all)

set_option maxRecDepth 4000 in
/-- editorProcessKeypress preserves the cursor-bounds invariant in every
mode, from any state in which editorScroll has just run (so the scroll
offset is at or above the cursor row) on a screen with at least one row. -/
theorem processKeypress_inv (s : EState) (c : Nat) (h : cursorInv s) (hro : s.rowoff ≤ s.cy)
    (hsr : 1 ≤ s.screenrows) : stepInv (editorProcessKeypress s c) := by
  cases hmo : s.mode with
  | normal =>
    rw [processKeypress_normal s c hmo]
    split_ifs with hd
    · exact h
    · have hns := normalSwitch_inv s c h hro hsr
      rcases hrec : normalSwitch s c with _ | t
      · exact True.intro
      · rw [hrec] at hns
        exact hns
  | insert =>
    rw [processKeypress_insert s c hmo]
    split_ifs with h1 h2
    · exact h
    · exact editorMoveCursor_inv s c h.1
    · exact h
  | command =>
    rw [processKeypress_command s c hmo]
    split_ifs <;> first
      | exact True.intro
      | (refine cursorInv_congr ?_ ?_ ?_ ?_ h <;> rfl)

end Ni

namespace Ni

/-- In Normal mode, the Down arrow dispatches to editorMoveCursor. -/
theorem normalSwitch_down (s : EState) :
    normalSwitch s ARROW_DOWN = .next (editorMoveCursor s ARROW_DOWN) := by
  unfold normalSwitch
  simp [ARROW_DOWN, ARROW_UP, ARROW_LEFT, ARROW_RIGHT, HOME_KEY, END_KEY, PAGE_UP, PAGE_DOWN]

/-- The motion switch on the Down arrow: advance the row, clamped at
numrows. -/
theorem moveCursorCore_down (s : EState) :
    moveCursorCore s ARROW_DOWN = if s.cy < s.numrows then { s with cy := s.cy + 1 } else s := by
  unfold moveCursorCore
  simp [ARROW_DOWN, ARROW_UP, ARROW_LEFT, ARROW_RIGHT]

/-- Effect of a processed Down key in Normal mode: the mode survives, the
row store is untouched, the row index moves down clamped at numrows, and
the snap leaves the column within the target row. -/
theorem press_down (s : EState) (h : s.mode = Mode.normal) :
    (press s ARROW_DOWN).mode = Mode.normal ∧
    (press s ARROW_DOWN).numrows = s.numrows ∧
    (press s ARROW_DOWN).row = s.row ∧
    (press s ARROW_DOWN).cy = (if s.cy < s.numrows then s.cy + 1 else s.cy) ∧
    (press s ARROW_DOWN).cx ≤ rowLenAt (press s ARROW_DOWN) := by
  have dig : ¬(ARROW_DOWN ≤ 57 ∧ (49 ≤ ARROW_DOWN ∨ (s.cmdrep ≠ 0 ∧ 48 ≤ ARROW_DOWN))) := by
    simp [ARROW_DOWN]
  have hp : press s ARROW_DOWN = { snapCursor (moveCursorCore s ARROW_DOWN) with cmdrep := 0 } := by
    unfold press
    rw [processKeypress_normal s ARROW_DOWN h, if_neg dig, normalSwitch_down s]
    rfl
  rw [hp, moveCursorCore_down s]
  unfold snapCursor rowLenAt
  split_ifs <;> simp_all

/-- Effect of a processed dollar key in Normal mode with the cursor past the
last row: nothing but the repeat count changes. -/
theorem press_end_past (s : EState) (h : s.mode = Mode.normal) (hcy : s.numrows ≤ s.cy) :
    press s 36 = { s with cmdrep := 0 } := by
  have dig : ¬((36 : Nat) ≤ 57 ∧ (49 ≤ 36 ∨ (s.cmdrep ≠ 0 ∧ 48 ≤ 36))) := by simp
  have hx : ¬s.cy < s.numrows := by omega
  have hns : normalSwitch s 36 = .next s := by
    unfold normalSwitch
    simp [ARROW_UP, ARROW_DOWN, ARROW_LEFT, ARROW_RIGHT, HOME_KEY, END_KEY, PAGE_UP, PAGE_DOWN, hx]
  unfold press
  rw [processKeypress_normal s 36 h, if_neg dig, hns]
  rfl

end Ni

namespace Ni

/-- C3: the cursor-bounds invariant (0 ≤ cy ≤ numrows and 0 ≤ cx ≤ current
row length, with length 0 past the last row; the lower bounds are carried by
the Nat type) is preserved by every processed keypress in every mode, from
any state in which a keypress is actually processed: the main loop runs
editorScroll before each keypress, so rowoff ≤ cy (C2), on a screen with at
least one row.  Moreover on a zero-row buffer Down leaves cy = 0, on a 3-row
buffer three Downs from row 0 leave cy = 3 (one past the last row), and a
subsequent dollar key then leaves cx = 0. -/
theorem C3_cursor_bounds :
    (∀ (s : EState) (c : Nat), cursorInv s → s.rowoff ≤ s.cy → 1 ≤ s.screenrows →
       stepInv (editorProcessKeypress s c)) ∧
    (∀ s : EState, s.mode = Mode.normal → s.numrows = 0 → s.cy = 0 →
       (press s ARROW_DOWN).cy = 0) ∧
    (∀ s : EState, s.mode = Mode.normal → s.numrows = 3 → s.cy = 0 →
       (press (press (press s ARROW_DOWN) ARROW_DOWN) ARROW_DOWN).cy = 3 ∧
       (press (press (press (press s ARROW_DOWN) ARROW_DOWN) ARROW_DOWN) 36).cx = 0) := by
  refine ⟨processKeypress_inv, ?_, ?_⟩
  · intro s hm hn hc
    have e := press_down s hm
    rw [e.2.2.2.1, hn, hc]
    simp
  · intro s hm hn hc
    have e1 := press_down s hm
    have e2 := press_down _ e1.1
    have e3 := press_down _ e2.1
    have c1 : (press s ARROW_DOWN).cy = 1 := by
      rw [e1.2.2.2.1, hn, hc]
      simp
    have n1 : (press s ARROW_DOWN).numrows = 3 := by rw [e1.2.1, hn]
    have c2 : (press (press s ARROW_DOWN) ARROW_DOWN).cy = 2 := by
      rw [e2.2.2.2.1, c1, n1]
      simp
    have n2 : (press (press s ARROW_DOWN) ARROW_DOWN).numrows = 3 := by rw [e2.2.1, n1]
    have c3 : (press (press (press s ARROW_DOWN) ARROW_DOWN) ARROW_DOWN).cy = 3 := by
      rw [e3.2.2.2.1, c2, n2]
      simp
    have n3 : (press (press (press s ARROW_DOWN) ARROW_DOWN) ARROW_DOWN).numrows = 3 := by
      rw [e3.2.1, n2]
    refine ⟨c3, ?_⟩
    have hrl : rowLenAt (press (press (press s ARROW_DOWN) ARROW_DOWN) ARROW_DOWN) = 0 := by
      unfold rowLenAt
      rw [c3, n3]
      simp
    have hcx : (press (press (press s ARROW_DOWN) ARROW_DOWN) ARROW_DOWN).cx = 0 := by
      have hle := e3.2.2.2.2
      omega
    have hfin := press_end_past _ e3.1 (by omega)
    rw [hfin]
    simpa using hcx

/-- A concrete 3-row buffer ("ab", "c", "def") on a 10 by 10 screen. -/
def s3rows : EState :=
  editorAppendRow (editorAppendRow (editorAppendRow (initEditor 10 10) [97, 98]) [99])
    [100, 101, 102]

/-- Witness for C3: the invariant survives a processed j key on the 3-row
buffer, Down on the empty initial buffer keeps cy = 0, and the Down-Down-
Down-dollar scenario on the 3-row buffer ends at cy = 3, cx = 0. -/
theorem C3_cursor_bounds_witness :
    stepInv (editorProcessKeypress s3rows 106) ∧
    (press (initEditor 10 10) ARROW_DOWN).cy = 0 ∧
    ((press (press (press s3rows ARROW_DOWN) ARROW_DOWN) ARROW_DOWN).cy = 3 ∧
     (press (press (press (press s3rows ARROW_DOWN) ARROW_DOWN) ARROW_DOWN) 36).cx = 0) :=
  ⟨C3_cursor_bounds.1 s3rows 106 (by decide) (by decide) (by decide),
   C3_cursor_bounds.2.1 (initEditor 10 10) (by decide) (by decide) (by decide),
   C3_cursor_bounds.2.2 s3rows (by decide) (by decide) (by decide)⟩

end Ni

namespace Ni

/-- C4: the key decoder maps escape sequences exactly as specified: a
non-ESC first byte is returned literally; a timeout on either lookahead
read (or on the third read after a digit) yields ESC; `ESC [ digit x` with
x not `~` yields ESC; `ESC [ digit ~` with a digit outside the table yields
ESC; any non-`[` second byte or unrecognized third byte yields ESC; and the
recognized sequences map to Up/Down/Right/Left, Home, End, Delete, PageUp,
PageDown per the table. -/
theorem C4_key_decoder :
    (∀ (c : Nat) (p : List Nat), c ≠ 27 → editorReadKey c p = c) ∧
    (∀ d : Nat, 48 ≤ d → d ≤ 57 → editorReadKey 27 [91, d] = 27) ∧
    (∀ (d s2 : Nat) (r : List Nat), 48 ≤ d → d ≤ 57 → s2 ≠ 126 →
       editorReadKey 27 (91 :: d :: s2 :: r) = 27) ∧
    (∀ (d : Nat) (r : List Nat), d = 48 ∨ d = 50 ∨ d = 57 →
       editorReadKey 27 (91 :: d :: 126 :: r) = 27) ∧
    (∀ (s0 s1 : Nat) (r : List Nat), s0 ≠ 91 → editorReadKey 27 (s0 :: s1 :: r) = 27) ∧
    (∀ (s1 : Nat) (r : List Nat), ¬(48 ≤ s1 ∧ s1 ≤ 57) →
       s1 ≠ 65 → s1 ≠ 66 → s1 ≠ 67 → s1 ≠ 68 → s1 ≠ 72 → s1 ≠ 70 →
       editorReadKey 27 (91 :: s1 :: r) = 27) ∧
    editorReadKey 27 [] = 27 ∧
    (∀ b : Nat, editorReadKey 27 [b] = 27) ∧
    (∀ r : List Nat, editorReadKey 27 (91 :: 65 :: r) = ARROW_UP) ∧
    (∀ r : List Nat, editorReadKey 27 (91 :: 66 :: r) = ARROW_DOWN) ∧
    (∀ r : List Nat, editorReadKey 27 (91 :: 67 :: r) = ARROW_RIGHT) ∧
    (∀ r : List Nat, editorReadKey 27 (91 :: 68 :: r) = ARROW_LEFT) ∧
    (∀ r : List Nat, editorReadKey 27 (91 :: 72 :: r) = HOME_KEY) ∧
    (∀ r : List Nat, editorReadKey 27 (91 :: 70 :: r) = END_KEY) ∧
    (∀ r : List Nat, editorReadKey 27 (91 :: 49 :: 126 :: r) = HOME_KEY) ∧
    (∀ r : List Nat, editorReadKey 27 (91 :: 55 :: 126 :: r) = HOME_KEY) ∧
    (∀ r : List Nat, editorReadKey 27 (91 :: 51 :: 126 :: r) = DEL_KEY) ∧
    (∀ r : List Nat, editorReadKey 27 (91 :: 52 :: 126 :: r) = END_KEY) ∧
    (∀ r : List Nat, editorReadKey 27 (91 :: 56 :: 126 :: r) = END_KEY) ∧
    (∀ r : List Nat, editorReadKey 27 (91 :: 53 :: 126 :: r) = PAGE_UP) ∧
    (∀ r : List Nat, editorReadKey 27 (91 :: 54 :: 126 :: r) = PAGE_DOWN) := by
  refine ⟨fun c p h => by simp [editorReadKey, h],
          fun d h1 h2 => by simp [editorReadKey, h1, h2],
          fun d s2 r h1 h2 h3 => by simp [editorReadKey, h1, h2, h3],
          fun d r hd => by rcases hd with rfl | rfl | rfl <;> simp [editorReadKey],
          fun s0 s1 r h => by simp [editorReadKey, h],
          fun s1 r hnd h1 h2 h3 h4 h5 h6 => by
            simp [editorReadKey, hnd, h1, h2, h3, h4, h5, h6],
          by simp [editorReadKey],
          fun b => by simp [editorReadKey],
          fun r => by simp [editorReadKey],
          fun r => by simp [editorReadKey],
          fun r => by simp [editorReadKey],
          fun r => by simp [editorReadKey],
          fun r => by simp [editorReadKey],
          fun r => by simp [editorReadKey],
          fun r => by simp [editorReadKey],
          fun r => by simp [editorReadKey],
          fun r => by simp [editorReadKey],
          fun r => by simp [editorReadKey],
          fun r => by simp [editorReadKey],
          fun r => by simp [editorReadKey],
          fun r => by simp [editorReadKey]⟩

/-- Witness for C4: a literal byte, a timed-out third read, a non-tilde
third byte, an unmapped digit, a non-bracket second byte, and an
unrecognized letter all behave as the theorem states. -/
theorem C4_key_decoder_witness :
    editorReadKey 120 [] = 120 ∧
    editorReadKey 27 [91, 53] = 27 ∧
    editorReadKey 27 (91 :: 53 :: 65 :: []) = 27 ∧
    editorReadKey 27 (91 :: 50 :: 126 :: []) = 27 ∧
    editorReadKey 27 (79 :: 65 :: []) = 27 ∧
    editorReadKey 27 (91 :: 90 :: []) = 27 :=
  ⟨C4_key_decoder.1 120 [] (by decide),
   C4_key_decoder.2.1 53 (by decide) (by decide),
   C4_key_decoder.2.2.1 53 65 [] (by decide) (by decide) (by decide),
   C4_key_decoder.2.2.2.1 50 [] (by decide),
   C4_key_decoder.2.2.2.2.1 79 65 [] (by decide),
   C4_key_decoder.2.2.2.2.2.1 90 [] (by decide) (by decide) (by decide) (by decide) (by decide)
     (by decide) (by decide)⟩

end Ni

namespace Ni

/-- A key accepted by the repeat-count test only updates cmdrep, by the
count = count * 10 + digit rule. -/
theorem processKeypress_digit (s : EState) (c : Nat) (hm : s.mode = Mode.normal)
    (hd : c ≤ 57 ∧ (49 ≤ c ∨ (s.cmdrep ≠ 0 ∧ 48 ≤ c))) :
    editorProcessKeypress s c = .next { s with cmdrep := s.cmdrep * 10 + (c - 48) } := by
  rw [processKeypress_normal s c hm, if_pos hd]
  rfl

/-- C5: in Normal mode a digit 1-9, or 0 once the pending count is non-zero,
accumulates count = count * 10 + digit and changes nothing else; pressing 1
then 2 from a zero count yields 12; and any non-digit key processed in
Normal mode leaves the count at 0 whenever it leaves a state at all. -/
theorem C5_repeat_count :
    (∀ (s : EState) (c : Nat), s.mode = Mode.normal →
       ((49 ≤ c ∧ c ≤ 57) ∨ (c = 48 ∧ s.cmdrep ≠ 0)) →
       editorProcessKeypress s c = .next { s with cmdrep := s.cmdrep * 10 + (c - 48) }) ∧
    (∀ s : EState, s.mode = Mode.normal → s.cmdrep = 0 →
       press (press s 49) 50 = { s with cmdrep := 12 }) ∧
    (∀ (s : EState) (c : Nat), s.mode = Mode.normal → ¬(48 ≤ c ∧ c ≤ 57) →
       ∀ t, editorProcessKeypress s c = .next t → t.cmdrep = 0) := by
  refine ⟨?_, ?_, ?_⟩
  · intro s c hm hd
    exact processKeypress_digit s c hm (by omega)
  · intro s hm h0
    have p1 : press s 49 = { s with cmdrep := 1 } := by
      unfold press
      rw [processKeypress_digit s 49 hm (by omega)]
      simp [nextState, h0]
    rw [p1]
    unfold press
    rw [processKeypress_digit { s with cmdrep := 1 } 50 (by simpa using hm) (by simp)]
    simp [nextState]
  · intro s c hm hnd t ht
    have hcond : ¬(c ≤ 57 ∧ (49 ≤ c ∨ (s.cmdrep ≠ 0 ∧ 48 ≤ c))) := by omega
    rw [processKeypress_normal s c hm, if_neg hcond] at ht
    rcases hr : normalSwitch s c with _ | u
    · rw [hr] at ht
      simp at ht
    · rw [hr] at ht
      simp only [StepResult.next.injEq] at ht
      rw [← ht]

/-- Witness for C5: pressing 5 from a fresh state sets the count to 5,
1 then 2 sets it to 12, and the motion key h resets it to 0. -/
theorem C5_repeat_count_witness :
    editorProcessKeypress (initEditor 10 10) 53 = .next { initEditor 10 10 with cmdrep := 5 } ∧
    press (press (initEditor 10 10) 49) 50 = { initEditor 10 10 with cmdrep := 12 } ∧
    (press (initEditor 10 10) 104).cmdrep = 0 :=
  ⟨C5_repeat_count.1 (initEditor 10 10) 53 (by decide) (by decide),
   C5_repeat_count.2.1 (initEditor 10 10) (by decide) (by decide),
   C5_repeat_count.2.2 (initEditor 10 10) 104 (by decide) (by decide)
     (press (initEditor 10 10) 104) (by decide)⟩

end Ni

namespace Ni

/-- C6: Enter (byte 13) in Command mode executes the buffer: if any byte of
the buffer is q the process exits (through the screen-clearing editorExit
path, modelled as the exit step result); otherwise the editor returns to
Normal mode with an empty command buffer and a cleared status message. -/
theorem C6_command_enter :
    (∀ s : EState, s.mode = Mode.command → editorCommandModeQuit s.cmdbuf = true →
       editorProcessKeypress s 13 = .exit) ∧
    (∀ s : EState, s.mode = Mode.command → editorCommandModeQuit s.cmdbuf = false →
       editorProcessKeypress s 13 =
         .next { s with mode := Mode.normal, cmdbuf := { b := [], len := 0 },
                        statusmsg := [] }) := by
  constructor
  · intro s hm hq
    rw [processKeypress_command s 13 hm, if_pos rfl, if_pos hq]
  · intro s hm hq
    have hq2 : ¬editorCommandModeQuit s.cmdbuf = true := by simp [hq]
    rw [processKeypress_command s 13 hm, if_pos rfl, if_neg hq2]
    rfl

/-- The Command-mode state holding ":q" (buffer "q"). -/
def sCmdQ : EState :=
  { initEditor 10 10 with mode := Mode.command, cmdbuf := { b := [113], len := 1 } }

/-- The Command-mode state holding ":x" (buffer "x"). -/
def sCmdX : EState :=
  { initEditor 10 10 with mode := Mode.command, cmdbuf := { b := [120], len := 1 } }

/-- Witness for C6: ":q" then Enter exits; ":x" then Enter goes back to
Normal mode with an empty buffer, a cleared message, and no exit. -/
theorem C6_command_enter_witness :
    editorProcessKeypress sCmdQ 13 = .exit ∧
    editorProcessKeypress sCmdX 13 =
      .next { sCmdX with mode := Mode.normal, cmdbuf := { b := [], len := 0 },
                         statusmsg := [] } :=
  ⟨C6_command_enter.1 sCmdQ (by decide) (by decide),
   C6_command_enter.2 sCmdX (by decide) (by decide)⟩

/-- C7 is a code bug: abDelete's guard `ab->len - n > 0` runs in unsigned
size_t arithmetic.  On an empty buffer 0 - 1 wraps to 2^64 - 1, the guard
passes, and len becomes -1 instead of the no-op the spec states; on a
1-byte buffer the guard fails and the last byte is not removed.  Only
buffers of length at least 2 shrink by one.  The last conjunct runs the
failing input through the dispatcher: the delete key 56 in Command mode on
an empty buffer drives the command buffer length to -1. -/
def sC7 : EState := { initEditor 10 10 with mode := Mode.command }

/-- Evaluation of the C7 failing inputs. -/
theorem C7_abDelete_failing :
    (abDelete { b := [], len := 0 } 1).len = -1 ∧
    (abDelete { b := [120], len := 1 } 1).len = 1 ∧
    (abDelete { b := [120, 121], len := 2 } 1).len = 1 ∧
    editorProcessKeypress sC7 56 = .next { sC7 with cmdbuf := { b := [], len := -1 } } :=
  ⟨by decide, by decide, by decide, by decide⟩

/-- The Command-mode state holding ":x", for the C8 example. -/
def sC8 : EState :=
  { initEditor 10 10 with mode := Mode.command, cmdbuf := { b := [120], len := 1 } }

/-- C8 counterexample: the byte 56, '8', is printable and is neither Enter
nor ESC, yet in Command mode the dispatcher routes it to the delete case,
so it is not appended to the command buffer: on buffer "x" the result
keeps b = "x" instead of becoming "x8" with status ":x8". -/
theorem C8_counterexample :
    isprint 56 = true ∧ (56 : Nat) ≠ 13 ∧ (56 : Nat) ≠ 27 ∧
    editorProcessKeypress sC8 56 ≠
      .next { sC8 with cmdbuf := abAppend sC8.cmdbuf [56],
                       statusmsg := editorSetStatusMsg (58 :: abContents (abAppend sC8.cmdbuf [56])) } ∧
    (nextState (editorProcessKeypress sC8 56) sC8).cmdbuf.b = [120] :=
  ⟨by decide, by decide, by decide, by decide, by decide⟩

/-- C8 amended: for every printable byte received in Command mode other
than Enter, ESC, and the delete key '8' (byte 56), the dispatcher appends
the byte to the command buffer and refreshes the status message to ':'
followed by the buffer contents (truncated to the 79-byte status field),
and the mode stays Command. -/
theorem C8_command_append (s : EState) (c : Nat) (hm : s.mode = Mode.command)
    (hwf : s.cmdbuf.len = (s.cmdbuf.b.length : Int)) (hp : 32 ≤ c ∧ c ≤ 126) (h8 : c ≠ 56) :
    editorProcessKeypress s c =
      .next { s with cmdbuf := { b := s.cmdbuf.b ++ [c], len := s.cmdbuf.len + 1 },
                     statusmsg := (58 :: (s.cmdbuf.b ++ [c])).take 79 } := by
  have h13 : c ≠ 13 := by omega
  have h27 : c ≠ 27 := by omega
  have hpr : isprint c = true := by simp [isprint]; omega
  rw [processKeypress_command s c hm, if_neg h13, if_neg h27, if_neg h8, if_pos hpr]
  have hto : s.cmdbuf.len.toNat = s.cmdbuf.b.length := by rw [hwf]; simp
  simp [abAppend, abContents, editorSetStatusMsg, hto, hwf]
  have hinner : List.take (s.cmdbuf.b.length + 1) (s.cmdbuf.b ++ [c]) = s.cmdbuf.b ++ [c] :=
    List.take_of_length_le (by simp)
  rw [hinner]

/-- Witness for C8 amended: typing x with ":x" pending appends and refreshes
the status to ":xx". -/
theorem C8_command_append_witness :
    editorProcessKeypress sC8 120 =
      .next { sC8 with cmdbuf := { b := [120, 120], len := 2 },
                       statusmsg := [58, 120, 120] } :=
  C8_command_append sC8 120 (by decide) (by decide) (by decide) (by decide)

end Ni

namespace Ni

/-- C9: Insert mode never mutates row content.  For every key processed in
Insert mode the row store (the full list of rows, so every row's chars,
size, render and rsize) and numrows are unchanged; ESC only switches the
mode to Normal; arrow keys only move the cursor (editorMoveCursor writes
nothing but cx and cy); every other key, in particular every typed
printable character, changes nothing at all. -/
theorem C9_insert_frame :
    ∀ (s : EState) (c : Nat), s.mode = Mode.insert →
      ((nextState (editorProcessKeypress s c) s).row = s.row ∧
       (nextState (editorProcessKeypress s c) s).numrows = s.numrows) ∧
      (c = 27 → editorProcessKeypress s c = .next { s with mode := Mode.normal }) ∧
      ((c = ARROW_UP ∨ c = ARROW_DOWN ∨ c = ARROW_LEFT ∨ c = ARROW_RIGHT) →
        editorProcessKeypress s c = .next (editorMoveCursor s c) ∧
        ∃ a b, editorMoveCursor s c = { s with cx := a, cy := b }) ∧
      (c ≠ 27 → ¬(c = ARROW_UP ∨ c = ARROW_DOWN ∨ c = ARROW_LEFT ∨ c = ARROW_RIGHT) →
        editorProcessKeypress s c = .next s) := by
  intro s c hm
  rw [processKeypress_insert s c hm]
  by_cases h27 : c = 27
  · subst h27
    simp [ARROW_UP, ARROW_DOWN, ARROW_LEFT, ARROW_RIGHT, nextState]
  · by_cases har : c = ARROW_UP ∨ c = ARROW_DOWN ∨ c = ARROW_LEFT ∨ c = ARROW_RIGHT
    · rw [if_neg h27, if_pos har]
      obtain ⟨a, b, hab⟩ := editorMoveCursor_frame s c
      refine ⟨⟨?_, ?_⟩, fun hx => absurd hx h27, fun _ => ⟨rfl, a, b, hab⟩,
              fun _ hn => absurd har hn⟩
      · rw [show nextState (StepResult.next (editorMoveCursor s c)) s = editorMoveCursor s c
              from rfl, hab]
      · rw [show nextState (StepResult.next (editorMoveCursor s c)) s = editorMoveCursor s c
              from rfl, hab]
    · rw [if_neg h27, if_neg har]
      exact ⟨⟨rfl, rfl⟩, fun hx => absurd hx h27, fun hx => absurd hx har, fun _ _ => rfl⟩

/-- An Insert-mode state over the 3-row buffer. -/
def sIns : EState := { s3rows with mode := Mode.insert }

/-- Witness for C9 at the typed character x (byte 120): it is silently
dropped. -/
theorem C9_insert_frame_witness :
    ((nextState (editorProcessKeypress sIns 120) sIns).row = sIns.row ∧
     (nextState (editorProcessKeypress sIns 120) sIns).numrows = sIns.numrows) ∧
    ((120 : Nat) = 27 → editorProcessKeypress sIns 120 = .next { sIns with mode := Mode.normal }) ∧
    (((120 : Nat) = ARROW_UP ∨ (120 : Nat) = ARROW_DOWN ∨ (120 : Nat) = ARROW_LEFT ∨
        (120 : Nat) = ARROW_RIGHT) →
      editorProcessKeypress sIns 120 = .next (editorMoveCursor sIns 120) ∧
      ∃ a b, editorMoveCursor sIns 120 = { sIns with cx := a, cy := b }) ∧
    ((120 : Nat) ≠ 27 →
      ¬((120 : Nat) = ARROW_UP ∨ (120 : Nat) = ARROW_DOWN ∨ (120 : Nat) = ARROW_LEFT ∨
        (120 : Nat) = ARROW_RIGHT) →
      editorProcessKeypress sIns 120 = .next sIns) :=
  C9_insert_frame sIns 120 (by decide)

/-- C10: in Normal mode the keys b (98) and B (66) are dispatched to
editorMoveCursor, which has no case for them, so from any state satisfying
the cursor-bounds column invariant the only change is the repeat-count
reset to 0: cursor, mode and row store are untouched. -/
theorem C10_b_noop :
    ∀ s : EState, s.mode = Mode.normal → s.cx ≤ rowLenAt s →
      editorProcessKeypress s 98 = .next { s with cmdrep := 0 } ∧
      editorProcessKeypress s 66 = .next { s with cmdrep := 0 } := by
  have key : ∀ (s : EState) (c : Nat), s.mode = Mode.normal → s.cx ≤ rowLenAt s →
      c = 98 ∨ c = 66 → editorProcessKeypress s c = .next { s with cmdrep := 0 } := by
    intro s c hm hcx hc
    have hdig : ¬(c ≤ 57 ∧ (49 ≤ c ∨ (s.cmdrep ≠ 0 ∧ 48 ≤ c))) := by omega
    have hns : normalSwitch s c = .next (editorMoveCursor s c) := by
      unfold normalSwitch
      rcases hc with rfl | rfl <;>
        simp [ARROW_UP, ARROW_DOWN, ARROW_LEFT, ARROW_RIGHT, HOME_KEY, END_KEY, PAGE_UP,
          PAGE_DOWN]
    have hcore : moveCursorCore s c = s := by
      unfold moveCursorCore
      rcases hc with rfl | rfl <;> simp [ARROW_UP, ARROW_DOWN, ARROW_LEFT, ARROW_RIGHT]
    have hsn : ¬rowLenAt s < s.cx := by omega
    have hmv : editorMoveCursor s c = s := by
      unfold editorMoveCursor snapCursor
      rw [hcore, if_neg hsn]
    rw [processKeypress_normal s c hm, if_neg hdig, hns, hmv]
  intro s hm hcx
  exact ⟨key s 98 hm hcx (Or.inl rfl), key s 66 hm hcx (Or.inr rfl)⟩

/-- Witness for C10 on the 3-row buffer. -/
theorem C10_b_noop_witness :
    editorProcessKeypress s3rows 98 = .next { s3rows with cmdrep := 0 } ∧
    editorProcessKeypress s3rows 66 = .next { s3rows with cmdrep := 0 } :=
  C10_b_noop s3rows (by decide) (by decide)

end Ni
